import Mathlib

/-!
Verification of the ScreenQA metrics library (`metrics.py`).

The file embeds the source functions over exact rational arithmetic:
Python numbers become `ℚ`, lists become `List`, and the bounding box
4-tuple `(ymin, xmin, ymax, xmax)` becomes `ℚ × ℚ × ℚ × ℚ`.  The one
external dependency, `scipy.optimize.linear_sum_assignment`, is modelled
from the specification as an optimal partial one-to-one assignment.
-/

/-! ## Definitions -/

/-- A bounding box `(ymin, xmin, ymax, xmax)`, as in `metrics.py`. -/
abbrev Box : Type := ℚ × ℚ × ℚ × ℚ

namespace Box

/-- `ymin` component of a box. -/
def ymin (b : Box) : ℚ := b.1

/-- `xmin` component of a box. -/
def xmin (b : Box) : ℚ := b.2.1

/-- `ymax` component of a box. -/
def ymax (b : Box) : ℚ := b.2.2.1

/-- `xmax` component of a box. -/
def xmax (b : Box) : ℚ := b.2.2.2

end Box

/-- `(bbox[3] - bbox[1]) * (bbox[2] - bbox[0])`: the area expression used at
`metrics.py` lines 177-178. -/
def boxArea (b : Box) : ℚ := (b.xmax - b.xmin) * (b.ymax - b.ymin)

/-- `max(0, xmax - xmin) * max(0, ymax - ymin)` for the overlap rectangle,
`metrics.py` lines 170-174. -/
def interArea (b1 b2 : Box) : ℚ :=
  max 0 (min b1.xmax b2.xmax - max b1.xmin b2.xmin) *
    max 0 (min b1.ymax b2.ymax - max b1.ymin b2.ymin)

/-- `iou(bbox1, bbox2)` from `metrics.py` lines 160-179. -/
def iou (b1 b2 : Box) : ℚ :=
  if interArea b1 b2 = 0 then 0
  else interArea b1 b2 / (boxArea b1 + boxArea b2 - interArea b1 b2)

/-- A partial one-to-one assignment between row indices `< n` and column
indices `< m`: a list of `(row, column)` pairs with no repeated row and no
repeated column. -/
def validAssignment (n m : ℕ) (σ : List (ℕ × ℕ)) : Prop :=
  (σ.map Prod.fst).Nodup ∧ (σ.map Prod.snd).Nodup ∧ ∀ p ∈ σ, p.1 < n ∧ p.2 < m

instance validAssignment.decidable (n m : ℕ) (σ : List (ℕ × ℕ)) :
    Decidable (validAssignment n m σ) := by
  unfold validAssignment; infer_instance

/-- All `(row, column)` index pairs of an `n × m` matrix. -/
def allPairs (n m : ℕ) : List (ℕ × ℕ) :=
  (List.range n).flatMap fun i => (List.range m).map fun j => (i, j)

/-- Total score of an assignment under score matrix `M`. -/
def totalScore (M : ℕ → ℕ → ℚ) (σ : List (ℕ × ℕ)) : ℚ :=
  (σ.map fun p => M p.1 p.2).sum

/-- Every valid partial assignment, each listed as a canonically ordered
subsequence of `allPairs n m`. -/
def candidates (n m : ℕ) : List (List (ℕ × ℕ)) :=
  (allPairs n m).sublists.filter fun σ => decide (validAssignment n m σ)

/-- Select, from a list of assignments, one of maximal total score
(starting from `best`). -/
def pickMax (M : ℕ → ℕ → ℚ) : List (List (ℕ × ℕ)) → List (ℕ × ℕ) → List (ℕ × ℕ)
  | [], best => best
  | σ :: rest, best =>
      pickMax M rest (if totalScore M best < totalScore M σ then σ else best)

/-- Modelled from the spec: `scipy.optimize.linear_sum_assignment`, the
external bipartite assignment solver invoked on the negated score matrix at
`metrics.py` line 240, is not part of this repository.  Per §4.5 and §6 of
the specification it is a maximum-weight one-to-one assignment between rows
and columns in which unmatched rows and columns are allowed; it is modelled
here by exhaustive search over all valid partial assignments. -/
def linearSumAssignment (M : ℕ → ℕ → ℚ) (n m : ℕ) : List (ℕ × ℕ) :=
  pickMax M (candidates n m) []

/-- The thresholded score matrix of `metrics.py` lines 234-238: cell
`(i, j)` holds `score_func(prediction[i], ground_truth[j])` when that score
is `>= threshold`, else `0`. -/
def costMatrix {α β : Type} (prediction : List α) (ground_truth : List β)
    (score_func : α → β → ℚ) (threshold : ℚ) (i j : ℕ) : ℚ :=
  match prediction[i]?, ground_truth[j]? with
  | some a, some b => if threshold ≤ score_func a b then score_func a b else 0
  | _, _ => 0

/-- `uic_bb_f1_score(prediction, ground_truth, score_func, threshold)` from
`metrics.py` lines 217-250, with the external solver modelled by
`linearSumAssignment`. -/
def uic_bb_f1_score {α β : Type} (prediction : List α) (ground_truth : List β)
    (score_func : α → β → ℚ) (threshold : ℚ) : ℚ :=
  if prediction.isEmpty && ground_truth.isEmpty then 1
  else if prediction.isEmpty || ground_truth.isEmpty then 0
  else
    let M := costMatrix prediction ground_truth score_func threshold
    let σ := linearSumAssignment M prediction.length ground_truth.length
    let matchCount := (σ.filter fun p => decide (threshold ≤ M p.1 p.2)).length
    if matchCount = 0 then 0
    else
      let precScore : ℚ := matchCount / prediction.length
      let recScore : ℚ := matchCount / ground_truth.length
      2 * precScore * recScore / (precScore + recScore)

/-- `num_same` of `f1_score` (`metrics.py` lines 148-151): the total count of
the multiset intersection `Counter(prediction_tokens) & Counter(ground_truth_tokens)`. -/
def num_same {α : Type} [DecidableEq α] (prediction_tokens ground_truth_tokens : List α) : ℕ :=
  Multiset.card ((prediction_tokens : Multiset α) ∩ (ground_truth_tokens : Multiset α))

/-- `f1_score(prediction_tokens, ground_truth_tokens)` from `metrics.py`
lines 138-157. -/
def f1_score {α : Type} [DecidableEq α] (prediction_tokens ground_truth_tokens : List α) : ℚ :=
  if num_same prediction_tokens ground_truth_tokens = 0 then 0
  else
    let precScore : ℚ := num_same prediction_tokens ground_truth_tokens / prediction_tokens.length
    let recScore : ℚ := num_same prediction_tokens ground_truth_tokens / ground_truth_tokens.length
    2 * precScore * recScore / (precScore + recScore)

/-- The "no answer" sentinel (`metrics.py` line 24). -/
def NO_ANSWER : String := "<no answer>"

/-- Membership in Python's `string.punctuation`: the ASCII characters with
codes 33-47, 58-64, 91-96 and 123-126. -/
def isPunctuation (c : Char) : Bool :=
  (33 ≤ c.toNat && c.toNat ≤ 47) || (58 ≤ c.toNat && c.toNat ≤ 64) ||
    (91 ≤ c.toNat && c.toNat ≤ 96) || (123 ≤ c.toNat && c.toNat ≤ 126)

/-- `replace_punctuation(s, punc_repl="")` (`metrics.py` lines 125-126):
every punctuation character is replaced by the empty string. -/
def replace_punctuation (s : String) : String :=
  ⟨s.toList.filter fun c => !isPunctuation c⟩

/-- `text.lower()` (`metrics.py` line 131), as ASCII lowercasing. -/
def py_lower (s : String) : String :=
  ⟨s.toList.map Char.toLower⟩

/-- A word character for the regex word boundary: Python `\w` restricted
to ASCII alphanumerics and underscore. -/
def isWordChar (c : Char) : Bool := c.isAlphanum || c = '_'

/-- One maximal word-character run of `re.sub` input: the article words
`a`, `an`, `the` are replaced by a single space, any other run kept. -/
def flushWord (w : List Char) : List Char :=
  if w == ['a'] || w == ['a', 'n'] || w == ['t', 'h', 'e'] then [' '] else w

/-- Scanner for `remove_articles`: splits the text into maximal
word-character runs (the exact matches of `\b(a|an|the)\b` are such runs)
and flushes each through `flushWord`; `acc` holds the current run reversed. -/
def removeArticlesAux : List Char → List Char → List Char
  | acc, [] => flushWord acc.reverse
  | acc, c :: rest =>
      if isWordChar c then removeArticlesAux (c :: acc) rest
      else flushWord acc.reverse ++ c :: removeArticlesAux [] rest

/-- `remove_articles(s)` = `re.sub(r"\b(a|an|the)\b", " ", s)`
(`metrics.py` lines 122-123). -/
def remove_articles (s : String) : String :=
  ⟨removeArticlesAux [] s.toList⟩

/-- Python `str.isspace` for the ASCII whitespace characters recognized by
`str.split()`. -/
def pyIsSpace (c : Char) : Bool :=
  c == ' ' || c == '\t' || c == '\n' || c == '\r' || c.toNat == 11 || c.toNat == 12

/-- Tokenizer for Python `s.split()`: maximal runs of non-whitespace
characters; `acc` holds the current token reversed. -/
def pySplitAux : List Char → List Char → List (List Char)
  | acc, [] => if acc.isEmpty then [] else [acc.reverse]
  | acc, c :: rest =>
      if pyIsSpace c then
        if acc.isEmpty then pySplitAux [] rest
        else acc.reverse :: pySplitAux [] rest
      else pySplitAux (c :: acc) rest

/-- Python `s.split()` with no separator argument. -/
def pySplit (s : String) : List String :=
  (pySplitAux [] s.toList).map fun l => (⟨l⟩ : String)

/-- `white_space_fix(s)` = `" ".join(s.split())` (`metrics.py`
lines 128-129). -/
def white_space_fix (s : String) : String :=
  String.intercalate " " (pySplit s)

/-- `normalize_squad(text)` from `metrics.py` lines 119-135. -/
def normalize_squad (text : String) : String :=
  white_space_fix (remove_articles (replace_punctuation (py_lower text)))

/-- Python `max` over a list of rationals (0 on the empty list, on which
the source never calls it). -/
def listMax : List ℚ → ℚ
  | [] => 0
  | x :: xs => xs.foldl max x

/-- `sqa_s_metrics(prediction, ground_truths)` from `metrics.py`
lines 27-50. -/
def sqa_s_metrics (prediction : String) (ground_truths : List String) : ℚ × ℚ :=
  if prediction = NO_ANSWER then
    if ground_truths.any fun gt => gt == NO_ANSWER then (1, 1) else (0, 0)
  else
    let gts := ground_truths.filter fun gt => gt != NO_ANSWER
    if gts.isEmpty then (0, 0)
    else
      let p := normalize_squad prediction
      let ngts := gts.map normalize_squad
      let exact_match : ℚ := if p ∈ ngts then 1 else 0
      let f1 := listMax (ngts.map fun gt => f1_score (pySplit p) (pySplit gt))
      (exact_match, f1)

/-- `sqa_uic_metrics(prediction, ground_truths)` from `metrics.py`
lines 53-74. -/
def sqa_uic_metrics {α : Type} [DecidableEq α] (prediction : List α)
    (ground_truths : List (List α)) : ℚ × ℚ :=
  if prediction.isEmpty then
    if ground_truths.any fun gt => gt.isEmpty then (1, 1) else (0, 0)
  else
    let gts := ground_truths.filter fun gt => !gt.isEmpty
    if gts.isEmpty then (0, 0)
    else
      ((if prediction ∈ gts then 1 else 0),
        listMax (gts.map fun gt => f1_score prediction gt))

/-- `ui_elements_match(element1, element2, iou_threshold)` from
`metrics.py` lines 182-195. -/
def ui_elements_match {α : Type} [DecidableEq α] (element1 element2 : Box × α)
    (iou_threshold : ℚ := 1/10) : Bool :=
  decide (element1.2 = element2.2) && decide (iou_threshold ≤ iou element1.1 element2.1)

/-- `uic_bb_exact_match(elements1, elements2, iou_threshold)` from
`metrics.py` lines 198-214. -/
def uic_bb_exact_match {α : Type} [DecidableEq α] (elements1 elements2 : List (Box × α))
    (iou_threshold : ℚ := 1/10) : Bool :=
  if elements1.length ≠ elements2.length then false
  else (elements1.zip elements2).all fun p => ui_elements_match p.1 p.2 iou_threshold

/-- `sqa_uic_bb_metrics(prediction, ground_truths, iou_threshold)` from
`metrics.py` lines 77-116.  As in the source (line 106), the exact-match
component calls `uic_bb_exact_match` without forwarding `iou_threshold`,
so that call uses the default `0.1`. -/
def sqa_uic_bb_metrics {α : Type} [DecidableEq α] (prediction : List (Box × α))
    (ground_truths : List (List (Box × α))) (iou_threshold : ℚ := 1/10) : ℚ × ℚ × ℚ :=
  if prediction.isEmpty then
    if ground_truths.any fun gt => gt.isEmpty then (1, 1, 1) else (0, 0, 0)
  else
    let gts := ground_truths.filter fun gt => !gt.isEmpty
    if gts.isEmpty then (0, 0, 0)
    else
      let bbox_f1 := listMax (gts.map fun gt =>
        uic_bb_f1_score (prediction.map Prod.fst) (gt.map Prod.fst) iou iou_threshold)
      let exact_match : ℚ :=
        if gts.any fun gt => uic_bb_exact_match prediction gt then 1 else 0
      let f1 := listMax (gts.map fun gt =>
        uic_bb_f1_score prediction gt
          (fun x y => if x.2 = y.2 then iou x.1 y.1 else 0) iou_threshold)
      (bbox_f1, exact_match, f1)

/-- Position-wise `Forall₂` is decidable. -/
instance decidableForall₂ {α β : Type} (R : α → β → Prop) [∀ a b, Decidable (R a b)] :
    ∀ (l₁ : List α) (l₂ : List β), Decidable (List.Forall₂ R l₁ l₂)
  | [], [] => isTrue List.Forall₂.nil
  | [], _ :: _ => isFalse fun h => by cases h
  | _ :: _, [] => isFalse fun h => by cases h
  | a :: l₁, b :: l₂ =>
      letI := decidableForall₂ R l₁ l₂
      decidable_of_iff (R a b ∧ List.Forall₂ R l₁ l₂) List.forall₂_cons.symm

/-! ## Theorems -/

theorem interArea_self (b : Box) (hy : b.ymin ≤ b.ymax) (hx : b.xmin ≤ b.xmax) :
    interArea b b = boxArea b := by
  unfold interArea boxArea
  rw [min_self, min_self, max_self, max_self,
    max_eq_right (sub_nonneg.2 hx), max_eq_right (sub_nonneg.2 hy)]

theorem interArea_comm (b1 b2 : Box) : interArea b1 b2 = interArea b2 b1 := by
  unfold interArea
  rw [min_comm b1.xmax b2.xmax, max_comm b1.xmin b2.xmin,
    min_comm b1.ymax b2.ymax, max_comm b1.ymin b2.ymin]

theorem interArea_nonneg (b1 b2 : Box) : 0 ≤ interArea b1 b2 :=
  mul_nonneg (le_max_left 0 _) (le_max_left 0 _)

/-- If the overlap rectangle has positive area then it is bounded by each
box's own area (for valid boxes). -/
theorem interArea_le_boxArea_left (b1 b2 : Box)
    (hy : b1.ymin ≤ b1.ymax) (hx : b1.xmin ≤ b1.xmax) :
    interArea b1 b2 ≤ boxArea b1 := by
  unfold interArea boxArea at *
  have hxw : max 0 (min b1.xmax b2.xmax - max b1.xmin b2.xmin) ≤ b1.xmax - b1.xmin := by
    apply max_le (sub_nonneg.2 hx)
    have h1 : min b1.xmax b2.xmax ≤ b1.xmax := min_le_left _ _
    have h2 : b1.xmin ≤ max b1.xmin b2.xmin := le_max_left _ _
    linarith
  have hyw : max 0 (min b1.ymax b2.ymax - max b1.ymin b2.ymin) ≤ b1.ymax - b1.ymin := by
    apply max_le (sub_nonneg.2 hy)
    have h1 : min b1.ymax b2.ymax ≤ b1.ymax := min_le_left _ _
    have h2 : b1.ymin ≤ max b1.ymin b2.ymin := le_max_left _ _
    linarith
  exact mul_le_mul hxw hyw (le_max_left 0 _)
    (le_trans (le_max_left 0 _) hxw)

/-- Claim C6 preliminary: `iou b b` for a valid box. -/
theorem iou_self_eq (b : Box) (hy : b.ymin ≤ b.ymax) (hx : b.xmin ≤ b.xmax) :
    (boxArea b = 0 → iou b b = 0) ∧ (boxArea b ≠ 0 → iou b b = 1) := by
  have hI := interArea_self b hy hx
  constructor
  · intro h0
    unfold iou
    rw [hI, h0]
    simp
  · intro hne
    unfold iou
    rw [hI]
    rw [if_neg hne]
    have : boxArea b + boxArea b - boxArea b = boxArea b := by ring
    rw [this, div_self hne]

/-- C6: for every bounding box `b = (ymin, xmin, ymax, xmax)` with
`ymin ≤ ymax` and `xmin ≤ xmax`, `iou(b, b) = 1` when
`(ymax - ymin) * (xmax - xmin) > 0` and `iou(b, b) = 0` when that
area is zero. -/
theorem iou_self_spec (b : Box) (hy : b.ymin ≤ b.ymax) (hx : b.xmin ≤ b.xmax) :
    (0 < (b.ymax - b.ymin) * (b.xmax - b.xmin) → iou b b = 1) ∧
      ((b.ymax - b.ymin) * (b.xmax - b.xmin) = 0 → iou b b = 0) := by
  have harea : boxArea b = (b.ymax - b.ymin) * (b.xmax - b.xmin) := by
    unfold boxArea; ring
  constructor
  · intro hpos
    exact (iou_self_eq b hy hx).2 (by rw [harea]; exact ne_of_gt hpos)
  · intro h0
    exact (iou_self_eq b hy hx).1 (by rw [harea, h0])

/-- Witness for C6: a unit box has `iou` 1 with itself, a degenerate
zero-width box has `iou` 0 with itself. -/
theorem iou_self_spec_witness :
    iou ((0 : ℚ), (0 : ℚ), (1 : ℚ), (1 : ℚ)) ((0 : ℚ), (0 : ℚ), (1 : ℚ), (1 : ℚ)) = 1 ∧
      iou ((0 : ℚ), (2 : ℚ), (5 : ℚ), (2 : ℚ)) ((0 : ℚ), (2 : ℚ), (5 : ℚ), (2 : ℚ)) = 0 :=
  ⟨(iou_self_spec ((0 : ℚ), (0 : ℚ), (1 : ℚ), (1 : ℚ)) (by norm_num [Box.ymin, Box.ymax])
      (by norm_num [Box.xmin, Box.xmax])).1
      (by norm_num [Box.ymin, Box.ymax, Box.xmin, Box.xmax]),
    (iou_self_spec ((0 : ℚ), (2 : ℚ), (5 : ℚ), (2 : ℚ)) (by norm_num [Box.ymin, Box.ymax])
      (by norm_num [Box.xmin, Box.xmax])).2
      (by norm_num [Box.ymin, Box.ymax, Box.xmin, Box.xmax])⟩

/-- C7: for valid boxes, `iou` is symmetric and lies in `[0, 1]`. -/
theorem iou_symm_and_range (a b : Box)
    (hay : a.ymin ≤ a.ymax) (hax : a.xmin ≤ a.xmax)
    (hby : b.ymin ≤ b.ymax) (hbx : b.xmin ≤ b.xmax) :
    iou a b = iou b a ∧ 0 ≤ iou a b ∧ iou a b ≤ 1 := by
  have hsymm : iou a b = iou b a := by
    unfold iou
    rw [interArea_comm a b, add_comm (boxArea a) (boxArea b)]
  refine ⟨hsymm, ?_, ?_⟩
  · unfold iou
    split
    · exact le_refl 0
    · rename_i hne
      have hInn : 0 ≤ interArea a b := interArea_nonneg a b
      have hIpos : 0 < interArea a b := lt_of_le_of_ne hInn (Ne.symm hne)
      have h1 : interArea a b ≤ boxArea a := interArea_le_boxArea_left a b hay hax
      have h2 : interArea a b ≤ boxArea b := by
        rw [interArea_comm a b]
        exact interArea_le_boxArea_left b a hby hbx
      have hden : 0 < boxArea a + boxArea b - interArea a b := by linarith
      positivity
  · unfold iou
    split
    · exact zero_le_one
    · rename_i hne
      have hInn : 0 ≤ interArea a b := interArea_nonneg a b
      have hIpos : 0 < interArea a b := lt_of_le_of_ne hInn (Ne.symm hne)
      have h1 : interArea a b ≤ boxArea a := interArea_le_boxArea_left a b hay hax
      have h2 : interArea a b ≤ boxArea b := by
        rw [interArea_comm a b]
        exact interArea_le_boxArea_left b a hby hbx
      have hden : 0 < boxArea a + boxArea b - interArea a b := by linarith
      rw [div_le_one hden]
      linarith

/-- Witness for C7 at two concrete overlapping boxes. -/
theorem iou_symm_and_range_witness :
    iou ((0 : ℚ), (0 : ℚ), (2 : ℚ), (2 : ℚ)) ((1 : ℚ), (1 : ℚ), (3 : ℚ), (3 : ℚ)) =
        iou ((1 : ℚ), (1 : ℚ), (3 : ℚ), (3 : ℚ)) ((0 : ℚ), (0 : ℚ), (2 : ℚ), (2 : ℚ)) ∧
      0 ≤ iou ((0 : ℚ), (0 : ℚ), (2 : ℚ), (2 : ℚ)) ((1 : ℚ), (1 : ℚ), (3 : ℚ), (3 : ℚ)) ∧
      iou ((0 : ℚ), (0 : ℚ), (2 : ℚ), (2 : ℚ)) ((1 : ℚ), (1 : ℚ), (3 : ℚ), (3 : ℚ)) ≤ 1 :=
  iou_symm_and_range ((0 : ℚ), (0 : ℚ), (2 : ℚ), (2 : ℚ)) ((1 : ℚ), (1 : ℚ), (3 : ℚ), (3 : ℚ))
    (by norm_num [Box.ymin, Box.ymax]) (by norm_num [Box.xmin, Box.xmax])
    (by norm_num [Box.ymin, Box.ymax]) (by norm_num [Box.xmin, Box.xmax])

theorem totalScore_le_pickMax (M : ℕ → ℕ → ℚ) :
    ∀ (l : List (List (ℕ × ℕ))) (best : List (ℕ × ℕ)),
      totalScore M best ≤ totalScore M (pickMax M l best)
  | [], _ => le_refl _
  | σ :: rest, best => by
      unfold pickMax
      split
      · rename_i hlt
        exact le_trans (le_of_lt hlt) (totalScore_le_pickMax M rest σ)
      · exact totalScore_le_pickMax M rest best

theorem totalScore_mem_le_pickMax (M : ℕ → ℕ → ℚ) :
    ∀ (l : List (List (ℕ × ℕ))) (best τ : List (ℕ × ℕ)), τ ∈ l →
      totalScore M τ ≤ totalScore M (pickMax M l best)
  | [], _, τ, h => absurd h (List.not_mem_nil τ)
  | σ :: rest, best, τ, h => by
      unfold pickMax
      rcases List.mem_cons.1 h with rfl | hmem
      · split
        · exact totalScore_le_pickMax M rest τ
        · rename_i hnot
          exact le_trans (le_of_not_lt hnot) (totalScore_le_pickMax M rest best)
      · split
        · exact totalScore_mem_le_pickMax M rest σ τ hmem
        · exact totalScore_mem_le_pickMax M rest best τ hmem

theorem validAssignment_pickMax (n m : ℕ) (M : ℕ → ℕ → ℚ) :
    ∀ (l : List (List (ℕ × ℕ))) (best : List (ℕ × ℕ)),
      (∀ σ ∈ l, validAssignment n m σ) → validAssignment n m best →
      validAssignment n m (pickMax M l best)
  | [], _, _, hb => hb
  | σ :: rest, best, hl, hb => by
      unfold pickMax
      split
      · exact validAssignment_pickMax n m M rest σ
          (fun τ ht => hl τ (List.mem_cons_of_mem σ ht)) (hl σ (List.mem_cons_self σ rest))
      · exact validAssignment_pickMax n m M rest best
          (fun τ ht => hl τ (List.mem_cons_of_mem σ ht)) hb

theorem validAssignment_nil (n m : ℕ) : validAssignment n m [] :=
  ⟨List.nodup_nil, List.nodup_nil, by simp⟩

theorem mem_candidates_valid {n m : ℕ} {σ : List (ℕ × ℕ)}
    (h : σ ∈ candidates n m) : validAssignment n m σ := by
  unfold candidates at h
  have hp := List.of_mem_filter h
  simp only [decide_eq_true_eq] at hp
  exact hp

theorem linearSumAssignment_valid (M : ℕ → ℕ → ℚ) (n m : ℕ) :
    validAssignment n m (linearSumAssignment M n m) :=
  validAssignment_pickMax n m M (candidates n m) []
    (fun _ h => mem_candidates_valid h) (validAssignment_nil n m)

theorem mem_allPairs {n m : ℕ} {p : ℕ × ℕ} (h1 : p.1 < n) (h2 : p.2 < m) :
    p ∈ allPairs n m := by
  unfold allPairs
  simp only [List.mem_flatMap, List.mem_map, List.mem_range]
  exact ⟨p.1, h1, p.2, h2, rfl⟩

theorem totalScore_perm (M : ℕ → ℕ → ℚ) {σ τ : List (ℕ × ℕ)} (h : σ.Perm τ) :
    totalScore M σ = totalScore M τ := by
  unfold totalScore
  exact (h.map fun p => M p.1 p.2).sum_eq

theorem validAssignment_perm {n m : ℕ} {σ τ : List (ℕ × ℕ)} (hp : σ.Perm τ)
    (h : validAssignment n m σ) : validAssignment n m τ :=
  ⟨(hp.map Prod.fst).nodup_iff.1 h.1, (hp.map Prod.snd).nodup_iff.1 h.2.1,
    fun p hp' => h.2.2 p (hp.mem_iff.2 hp')⟩

theorem exists_candidate_perm {n m : ℕ} {τ : List (ℕ × ℕ)}
    (h : validAssignment n m τ) : ∃ σ ∈ candidates n m, σ.Perm τ := by
  have hnd : τ.Nodup := h.1.of_map
  have hsub : τ ⊆ allPairs n m := fun p hp => mem_allPairs (h.2.2 p hp).1 (h.2.2 p hp).2
  obtain ⟨σ, hperm, hsl⟩ := hnd.subperm hsub
  refine ⟨σ, List.mem_filter.2 ⟨List.mem_sublists.2 hsl, ?_⟩, hperm⟩
  exact decide_eq_true (validAssignment_perm hperm.symm h)

/-- The modelled solver attains the maximum total score over all valid
partial assignments. -/
theorem linearSumAssignment_opt (M : ℕ → ℕ → ℚ) (n m : ℕ) :
    ∀ τ, validAssignment n m τ →
      totalScore M τ ≤ totalScore M (linearSumAssignment M n m) := by
  intro τ hτ
  obtain ⟨σ, hmem, hperm⟩ := exists_candidate_perm hτ
  have hle := totalScore_mem_le_pickMax M (candidates n m) [] σ hmem
  rw [totalScore_perm M hperm] at hle
  exact hle

/-- C4: `uic_bb_f1_score` on two empty lists is 1; if exactly one input
list is empty it is 0, for every score function and threshold. -/
theorem uic_bb_f1_score_empty {α β : Type} (f : α → β → ℚ) (t : ℚ) :
    uic_bb_f1_score ([] : List α) ([] : List β) f t = 1 ∧
      (∀ L : List β, L ≠ [] → uic_bb_f1_score ([] : List α) L f t = 0) ∧
      (∀ L : List α, L ≠ [] → uic_bb_f1_score L ([] : List β) f t = 0) := by
  refine ⟨rfl, ?_, ?_⟩
  · intro L hL
    unfold uic_bb_f1_score
    simp [List.isEmpty_iff, hL]
  · intro L hL
    unfold uic_bb_f1_score
    simp [List.isEmpty_iff, hL]

/-- Witness for C4 at concrete lists. -/
theorem uic_bb_f1_score_empty_witness :
    uic_bb_f1_score ([] : List ℕ) ([] : List ℕ) (fun _ _ => 1) 1 = 1 ∧
      uic_bb_f1_score ([] : List ℕ) [7] (fun _ _ => 1) 1 = 0 ∧
      uic_bb_f1_score [7] ([] : List ℕ) (fun _ _ => 1) 1 = 0 :=
  ⟨(uic_bb_f1_score_empty (fun _ _ => 1) 1).1,
    (uic_bb_f1_score_empty (fun _ _ => 1) 1).2.1 [7] (by simp),
    (uic_bb_f1_score_empty (fun _ _ => 1) 1).2.2 [7] (by simp)⟩

/-- C2: for non-empty lists, `uic_bb_f1_score` is the F1 computed from the
number `m` of threshold-passing pairs of a globally optimal partial
one-to-one assignment over the thresholded score matrix: 0 when `m = 0`,
else `2PR/(P+R)` with `P = m/|A|` and `R = m/|B|`. -/
theorem uic_bb_f1_score_eq_assignment_f1 {α β : Type} (A : List α) (B : List β)
    (f : α → β → ℚ) (t : ℚ) (hA : A ≠ []) (hB : B ≠ []) :
    ∃ σ, validAssignment A.length B.length σ ∧
      (∀ τ, validAssignment A.length B.length τ →
        totalScore (costMatrix A B f t) τ ≤ totalScore (costMatrix A B f t) σ) ∧
      uic_bb_f1_score A B f t =
        (if (σ.filter fun p => decide (t ≤ costMatrix A B f t p.1 p.2)).length = 0 then 0
         else
          2 * (((σ.filter fun p => decide (t ≤ costMatrix A B f t p.1 p.2)).length : ℚ) / A.length)
            * (((σ.filter fun p => decide (t ≤ costMatrix A B f t p.1 p.2)).length : ℚ) / B.length)
            / (((σ.filter fun p => decide (t ≤ costMatrix A B f t p.1 p.2)).length : ℚ) / A.length
              + ((σ.filter fun p => decide (t ≤ costMatrix A B f t p.1 p.2)).length : ℚ) / B.length)) := by
  refine ⟨linearSumAssignment (costMatrix A B f t) A.length B.length,
    linearSumAssignment_valid _ _ _, linearSumAssignment_opt _ _ _, ?_⟩
  obtain ⟨a, as, rfl⟩ : ∃ a as, A = a :: as := by
    cases A with
    | nil => exact absurd rfl hA
    | cons a as => exact ⟨a, as, rfl⟩
  obtain ⟨b, bs, rfl⟩ : ∃ b bs, B = b :: bs := by
    cases B with
    | nil => exact absurd rfl hB
    | cons b bs => exact ⟨b, bs, rfl⟩
  rfl

/-- Witness for C2 on concrete one- and two-element lists. -/
theorem uic_bb_f1_score_eq_assignment_f1_witness :
    ([0] : List ℕ) ≠ [] ∧ ([0, 1] : List ℕ) ≠ [] ∧
      ∃ σ, validAssignment ([0] : List ℕ).length ([0, 1] : List ℕ).length σ ∧
        (∀ τ, validAssignment ([0] : List ℕ).length ([0, 1] : List ℕ).length τ →
          totalScore (costMatrix [0] [0, 1] (fun x y : ℕ => if x = y then 1 else 0) (1/2)) τ ≤
            totalScore (costMatrix [0] [0, 1] (fun x y : ℕ => if x = y then 1 else 0) (1/2)) σ) ∧
        uic_bb_f1_score [0] [0, 1] (fun x y : ℕ => if x = y then 1 else 0) (1/2) =
          (if (σ.filter fun p => decide ((1/2 : ℚ) ≤
                costMatrix [0] [0, 1] (fun x y : ℕ => if x = y then 1 else 0) (1/2) p.1 p.2)).length
              = 0 then 0
           else
            2 * (((σ.filter fun p => decide ((1/2 : ℚ) ≤
                costMatrix [0] [0, 1] (fun x y : ℕ => if x = y then 1 else 0) (1/2) p.1 p.2)).length : ℚ)
                / ([0] : List ℕ).length)
              * (((σ.filter fun p => decide ((1/2 : ℚ) ≤
                costMatrix [0] [0, 1] (fun x y : ℕ => if x = y then 1 else 0) (1/2) p.1 p.2)).length : ℚ)
                / ([0, 1] : List ℕ).length)
              / (((σ.filter fun p => decide ((1/2 : ℚ) ≤
                costMatrix [0] [0, 1] (fun x y : ℕ => if x = y then 1 else 0) (1/2) p.1 p.2)).length : ℚ)
                / ([0] : List ℕ).length
                + ((σ.filter fun p => decide ((1/2 : ℚ) ≤
                costMatrix [0] [0, 1] (fun x y : ℕ => if x = y then 1 else 0) (1/2) p.1 p.2)).length : ℚ)
                / ([0, 1] : List ℕ).length)) :=
  ⟨by simp, by simp,
    uic_bb_f1_score_eq_assignment_f1 [0] [0, 1] (fun x y : ℕ => if x = y then 1 else 0) (1/2)
      (by simp) (by simp)⟩

/-- C9: with an empty input list on either side, the multiset intersection
is empty and `f1_score` returns 0 (the division branch is never reached). -/
theorem f1_score_total_on_empty {α : Type} [DecidableEq α] (A B : List α)
    (h : A = [] ∨ B = []) : num_same A B = 0 ∧ f1_score A B = 0 := by
  have h0 : num_same A B = 0 := by
    rcases h with rfl | rfl
    · simp [num_same]
    · simp [num_same]
  refine ⟨h0, ?_⟩
  unfold f1_score
  rw [if_pos h0]

/-- Witness for C9 at a concrete empty/non-empty pair. -/
theorem f1_score_total_on_empty_witness :
    num_same ([] : List ℕ) [1, 2] = 0 ∧ f1_score ([] : List ℕ) [1, 2] = 0 :=
  f1_score_total_on_empty [] [1, 2] (Or.inl rfl)

theorem filterMap_length_of_isSome {γ δ : Type} (f : γ → Option δ) :
    ∀ l : List γ, (∀ x ∈ l, (f x).isSome) → (l.filterMap f).length = l.length
  | [], _ => rfl
  | x :: l, h => by
      have hx := h x (List.mem_cons_self x l)
      obtain ⟨y, hy⟩ := Option.isSome_iff_exists.1 hx
      rw [List.filterMap_cons, hy]
      simp only [List.length_cons]
      rw [filterMap_length_of_isSome f l fun z hz => h z (List.mem_cons_of_mem x hz)]

theorem filterMap_congr_mem {γ δ : Type} (f g : γ → Option δ) :
    ∀ l : List γ, (∀ x ∈ l, f x = g x) → l.filterMap f = l.filterMap g
  | [], _ => rfl
  | x :: l, h => by
      rw [List.filterMap_cons, List.filterMap_cons, h x (List.mem_cons_self x l),
        filterMap_congr_mem f g l fun z hz => h z (List.mem_cons_of_mem x hz)]

theorem count_filterMap_getElem {α : Type} [DecidableEq α] (A : List α) (x : α) :
    ∀ I : List ℕ,
      (I.filterMap fun i => A[i]?).count x =
        (I.filter fun i => decide (A[i]? = some x)).length
  | [] => rfl
  | i :: I => by
      rw [List.filterMap_cons, List.filter_cons]
      cases h : A[i]? with
      | none =>
          simp only [h, decide_eq_true_eq]
          rw [if_neg (by simp)]
          exact count_filterMap_getElem A x I
      | some a =>
          simp only [h, decide_eq_true_eq, Option.some.injEq]
          by_cases hax : a = x
          · rw [if_pos hax, hax, List.count_cons_self, List.length_cons,
              count_filterMap_getElem A x I]
          · rw [if_neg hax, List.count_cons_of_ne fun hc => hax hc.symm]
            exact count_filterMap_getElem A x I

/-- The positions of `x` in `A`, as a filtered range, number `A.count x`. -/
theorem length_filter_range_getElem {α : Type} [DecidableEq α] :
    ∀ A : List α, ∀ x : α,
      ((List.range A.length).filter fun i => decide (A[i]? = some x)).length = A.count x
  | [], _ => rfl
  | a :: A, x => by
      rw [List.length_cons, List.range_succ_eq_map, List.filter_cons, List.filter_map]
      have h0 : (a :: A)[0]? = some a := by simp
      have hcomp : ((fun i => decide ((a :: A)[i]? = some x)) ∘ Nat.succ) =
          fun i => decide (A[i]? = some x) := by
        funext i
        simp only [Function.comp_apply, List.getElem?_cons_succ]
      rw [hcomp]
      by_cases hax : a = x
      · subst hax
        rw [if_pos (by simp [h0]), List.count_cons_self, List.length_cons,
          List.length_map, length_filter_range_getElem A a]
      · rw [if_neg (by simp [h0, hax]), List.count_cons_of_ne (fun hc => hax hc.symm) _,
          List.length_map, length_filter_range_getElem A x]

/-- Values read off a duplicate-free list of positions form a sub-multiset
of the list. -/
theorem filterMap_getElem_le_multiset {α : Type} [DecidableEq α] (A : List α)
    (I : List ℕ) (hI : I.Nodup) :
    ((I.filterMap fun i => A[i]?) : Multiset α) ≤ (A : Multiset α) := by
  rw [Multiset.le_iff_count]
  intro x
  rw [Multiset.coe_count, Multiset.coe_count, count_filterMap_getElem A x I]
  have hsub : (I.filter fun i => decide (A[i]? = some x)) ⊆
      (List.range A.length).filter fun i => decide (A[i]? = some x) := by
    intro i hi
    have hmem := List.mem_filter.1 hi
    have hx : A[i]? = some x := of_decide_eq_true hmem.2
    have hlt : i < A.length := by
      by_contra hge
      rw [List.getElem?_eq_none (le_of_not_lt hge)] at hx
      exact Option.noConfusion hx
    exact List.mem_filter.2 ⟨List.mem_range.2 hlt, hmem.2⟩
  have hnd : (I.filter fun i => decide (A[i]? = some x)).Nodup := hI.filter _
  have hlen := (hnd.subperm hsub).length_le
  rw [length_filter_range_getElem A x] at hlen
  exact hlen

/-- Any valid partial assignment whose pairs all read off equal values
matches at most `num_same A B` pairs. -/
theorem matched_le_num_same {α : Type} [DecidableEq α] (A B : List α)
    (σ : List (ℕ × ℕ)) (hσ : validAssignment A.length B.length σ)
    (hmatch : ∀ p ∈ σ, A[p.1]? = B[p.2]? ∧ (A[p.1]?).isSome) :
    σ.length ≤ num_same A B := by
  have hlen : (σ.filterMap fun p => A[p.1]?).length = σ.length :=
    filterMap_length_of_isSome _ σ fun p hp => (hmatch p hp).2
  have hA : ((σ.filterMap fun p => A[p.1]?) : Multiset α) ≤ (A : Multiset α) := by
    have hre : (σ.filterMap fun p => A[p.1]?) =
        (σ.map Prod.fst).filterMap fun i => A[i]? :=
      (List.filterMap_map Prod.fst (fun i => A[i]?) σ).symm
    rw [hre]
    exact filterMap_getElem_le_multiset A (σ.map Prod.fst) hσ.1
  have hB : ((σ.filterMap fun p => A[p.1]?) : Multiset α) ≤ (B : Multiset α) := by
    have hvalsB : (σ.filterMap fun p => A[p.1]?) = σ.filterMap fun p => B[p.2]? :=
      filterMap_congr_mem _ _ σ fun p hp => (hmatch p hp).1
    have hre : (σ.filterMap fun p => B[p.2]?) =
        (σ.map Prod.snd).filterMap fun j => B[j]? :=
      (List.filterMap_map Prod.snd (fun j => B[j]?) σ).symm
    rw [hvalsB, hre]
    exact filterMap_getElem_le_multiset B (σ.map Prod.snd) hσ.2.1
  calc σ.length = (σ.filterMap fun p => A[p.1]?).length := hlen.symm
    _ = Multiset.card ((σ.filterMap fun p => A[p.1]?) : Multiset α) :=
        (Multiset.coe_card _).symm
    _ ≤ Multiset.card ((A : Multiset α) ∩ (B : Multiset α)) :=
        Multiset.card_le_card (Multiset.le_inter hA hB)
    _ = num_same A B := rfl

/-- A valid partial assignment attaining the multiset intersection size
exists: `num_same` pairs, each reading off equal values. -/
theorem exists_assignment_num_same {α : Type} [DecidableEq α] :
    ∀ A B : List α, ∃ σ : List (ℕ × ℕ),
      validAssignment A.length B.length σ ∧
      (∀ p ∈ σ, A[p.1]? = B[p.2]? ∧ (A[p.1]?).isSome) ∧
      σ.length = num_same A B
  | [], B => ⟨[], validAssignment_nil _ _, by simp, by simp [num_same]⟩
  | a :: A, B => by
      by_cases ha : a ∈ B
      · obtain ⟨σ', hval, hmatch, hlen⟩ := exists_assignment_num_same A (B.erase a)
        have hjlt : B.indexOf a < B.length := List.indexOf_lt_length.2 ha
        have hBlen : (B.erase a).length = B.length - 1 := List.length_erase_of_mem ha
        have hshiftInj : Function.Injective
            fun c => if c < B.indexOf a then c else c + 1 := by
          intro c1 c2 h
          simp only at h
          split at h <;> split at h <;> omega
        refine ⟨(0, B.indexOf a) ::
          σ'.map fun p => (p.1 + 1, if p.2 < B.indexOf a then p.2 else p.2 + 1),
          ⟨?_, ?_, ?_⟩, ?_, ?_⟩
        · have hre : ((((0 : ℕ), B.indexOf a) ::
              σ'.map fun p =>
                ((p.1 + 1 : ℕ), if p.2 < B.indexOf a then p.2 else p.2 + 1)).map Prod.fst) =
              0 :: (σ'.map Prod.fst).map fun i => i + 1 := by
            rw [List.map_cons, List.map_map, List.map_map]
            rfl
          rw [hre, List.nodup_cons]
          constructor
          · intro hmem
            obtain ⟨i, _, hi⟩ := List.mem_map.1 hmem
            omega
          · exact hval.1.map (add_left_injective 1)
        · have hre : ((((0 : ℕ), B.indexOf a) ::
              σ'.map fun p =>
                ((p.1 + 1 : ℕ), if p.2 < B.indexOf a then p.2 else p.2 + 1)).map Prod.snd) =
              B.indexOf a ::
                (σ'.map Prod.snd).map fun c => if c < B.indexOf a then c else c + 1 := by
            rw [List.map_cons, List.map_map, List.map_map]
            rfl
          rw [hre, List.nodup_cons]
          constructor
          · intro hmem
            obtain ⟨c, _, hc⟩ := List.mem_map.1 hmem
            split at hc <;> omega
          · exact hval.2.1.map hshiftInj
        · intro p hp
          rcases List.mem_cons.1 hp with rfl | hp'
          · exact ⟨Nat.succ_pos A.length, hjlt⟩
          · obtain ⟨q, hq, rfl⟩ := List.mem_map.1 hp'
            have hb := hval.2.2 q hq
            rw [hBlen] at hb
            constructor
            · simp only [List.length_cons]
              omega
            · simp only
              split <;> omega
        · intro p hp
          rcases List.mem_cons.1 hp with rfl | hp'
          · have hB0 : B[B.indexOf a]? = some a := by
              rw [List.getElem?_eq_getElem hjlt, List.getElem_indexOf hjlt]
            simp [hB0]
          · obtain ⟨q, hq, rfl⟩ := List.mem_map.1 hp'
            have hm := hmatch q hq
            have herase : B.erase a = B.eraseIdx (B.indexOf a) :=
              (List.eraseIdx_indexOf_eq_erase a B).symm
            rw [herase] at hm
            constructor
            · simp only [List.getElem?_cons_succ]
              rw [hm.1]
              split
              · rename_i hlt
                exact List.getElem?_eraseIdx_of_lt B _ _ hlt
              · rename_i hge
                exact List.getElem?_eraseIdx_of_ge B _ _ (le_of_not_lt hge)
            · simp only [List.getElem?_cons_succ]
              exact hm.2
        · rw [List.length_cons, List.length_map, hlen]
          unfold num_same
          rw [← Multiset.cons_coe, Multiset.cons_inter_of_pos _ (Multiset.mem_coe.2 ha),
            Multiset.card_cons, Multiset.coe_erase]
      · obtain ⟨σ', hval, hmatch, hlen⟩ := exists_assignment_num_same A B
        refine ⟨σ'.map fun p => (p.1 + 1, p.2), ⟨?_, ?_, ?_⟩, ?_, ?_⟩
        · have hre : ((σ'.map fun p => ((p.1 + 1 : ℕ), p.2)).map Prod.fst) =
              (σ'.map Prod.fst).map fun i => i + 1 := by
            rw [List.map_map, List.map_map]
            rfl
          rw [hre]
          exact hval.1.map (add_left_injective 1)
        · have hre : ((σ'.map fun p => ((p.1 + 1 : ℕ), p.2)).map Prod.snd) =
              σ'.map Prod.snd := by
            rw [List.map_map]
            rfl
          rw [hre]
          exact hval.2.1
        · intro p hp
          obtain ⟨q, hq, rfl⟩ := List.mem_map.1 hp
          have hb := hval.2.2 q hq
          exact ⟨by simp only [List.length_cons]; omega, hb.2⟩
        · intro p hp
          obtain ⟨q, hq, rfl⟩ := List.mem_map.1 hp
          have hm := hmatch q hq
          simpa using hm
        · rw [List.length_map, hlen]
          unfold num_same
          rw [← Multiset.cons_coe, Multiset.cons_inter_of_neg _
            fun hc => ha (Multiset.mem_coe.1 hc)]

/-- Under plain-equality scoring and a threshold in `(0, 1]`, a thresholded
cell is 1 exactly when both positions exist and hold equal values. -/
theorem costMatrix_eq_cell {α : Type} [DecidableEq α] (A B : List α) (t : ℚ)
    (ht1 : t ≤ 1) (i j : ℕ) :
    costMatrix A B (fun x y => if x = y then 1 else 0) t i j =
      if (A[i]?).isSome ∧ A[i]? = B[j]? then 1 else 0 := by
  unfold costMatrix
  cases hA : A[i]? with
  | none => simp
  | some a =>
      cases hB : B[j]? with
      | none => simp
      | some b =>
          simp only [Option.isSome_some, true_and, Option.some.injEq]
          by_cases hab : a = b
          · subst hab
            simp [ht1]
          · simp only [if_neg hab, le_refl]
            split <;> rfl

/-- Under plain-equality scoring the total score of any assignment equals
its count of threshold-passing pairs. -/
theorem totalScore_eq_matchCount {α : Type} [DecidableEq α] (A B : List α) (t : ℚ)
    (ht0 : 0 < t) (ht1 : t ≤ 1) :
    ∀ σ : List (ℕ × ℕ),
      totalScore (costMatrix A B (fun x y => if x = y then 1 else 0) t) σ =
        ((σ.filter fun p =>
          decide (t ≤ costMatrix A B (fun x y => if x = y then 1 else 0) t p.1 p.2)).length : ℚ)
  | [] => by simp [totalScore]
  | p :: σ => by
      have hcell := costMatrix_eq_cell A B t ht1 p.1 p.2
      rw [List.filter_cons]
      by_cases hc : (A[p.1]?).isSome ∧ A[p.1]? = B[p.2]?
      · have h1 : costMatrix A B (fun x y => if x = y then 1 else 0) t p.1 p.2 = 1 := by
          rw [hcell, if_pos hc]
        have hd : decide (t ≤ costMatrix A B
            (fun x y => if x = y then 1 else 0) t p.1 p.2) = true :=
          decide_eq_true (by rw [h1]; exact ht1)
        rw [hd, if_pos rfl, List.length_cons]
        unfold totalScore
        rw [List.map_cons, List.sum_cons, h1]
        have hrec := totalScore_eq_matchCount A B t ht0 ht1 σ
        unfold totalScore at hrec
        rw [hrec]
        push_cast
        ring
      · have h0 : costMatrix A B (fun x y => if x = y then 1 else 0) t p.1 p.2 = 0 := by
          rw [hcell, if_neg hc]
        have hd : decide (t ≤ costMatrix A B
            (fun x y => if x = y then 1 else 0) t p.1 p.2) = false :=
          decide_eq_false (by rw [h0]; exact not_le.2 ht0)
        rw [hd, if_neg (by simp)]
        unfold totalScore
        rw [List.map_cons, List.sum_cons, h0, zero_add]
        have hrec := totalScore_eq_matchCount A B t ht0 ht1 σ
        unfold totalScore at hrec
        rw [hrec]

/-- Unfolding of `uic_bb_f1_score` on non-empty inputs. -/
theorem uic_bb_f1_score_cons {α β : Type} (a : α) (as : List α) (b : β) (bs : List β)
    (f : α → β → ℚ) (t : ℚ) :
    uic_bb_f1_score (a :: as) (b :: bs) f t =
      (if ((linearSumAssignment (costMatrix (a :: as) (b :: bs) f t)
            (a :: as).length (b :: bs).length).filter fun p =>
            decide (t ≤ costMatrix (a :: as) (b :: bs) f t p.1 p.2)).length = 0 then 0
       else
        2 * ((((linearSumAssignment (costMatrix (a :: as) (b :: bs) f t)
              (a :: as).length (b :: bs).length).filter fun p =>
              decide (t ≤ costMatrix (a :: as) (b :: bs) f t p.1 p.2)).length : ℚ)
            / (a :: as).length)
          * ((((linearSumAssignment (costMatrix (a :: as) (b :: bs) f t)
              (a :: as).length (b :: bs).length).filter fun p =>
              decide (t ≤ costMatrix (a :: as) (b :: bs) f t p.1 p.2)).length : ℚ)
            / (b :: bs).length)
          / ((((linearSumAssignment (costMatrix (a :: as) (b :: bs) f t)
              (a :: as).length (b :: bs).length).filter fun p =>
              decide (t ≤ costMatrix (a :: as) (b :: bs) f t p.1 p.2)).length : ℚ)
            / (a :: as).length
            + (((linearSumAssignment (costMatrix (a :: as) (b :: bs) f t)
              (a :: as).length (b :: bs).length).filter fun p =>
              decide (t ≤ costMatrix (a :: as) (b :: bs) f t p.1 p.2)).length : ℚ)
            / (b :: bs).length)) := rfl

/-- The match count of the modelled solver under plain-equality scoring is
exactly the multiset intersection size. -/
theorem solver_matchCount_eq_num_same {α : Type} [DecidableEq α] (A B : List α)
    (t : ℚ) (ht0 : 0 < t) (ht1 : t ≤ 1) :
    ((linearSumAssignment (costMatrix A B (fun x y => if x = y then 1 else 0) t)
        A.length B.length).filter fun p =>
        decide (t ≤ costMatrix A B (fun x y => if x = y then 1 else 0) t p.1 p.2)).length =
      num_same A B := by
  have hval := linearSumAssignment_valid
    (costMatrix A B (fun x y => if x = y then 1 else 0) t) A.length B.length
  -- upper bound: the filtered pairs form a valid all-matching assignment
  have hvalf : validAssignment A.length B.length
      ((linearSumAssignment (costMatrix A B (fun x y => if x = y then 1 else 0) t)
        A.length B.length).filter fun p =>
        decide (t ≤ costMatrix A B (fun x y => if x = y then 1 else 0) t p.1 p.2)) := by
    obtain ⟨h1, h2, h3⟩ := hval
    exact ⟨((List.filter_sublist _).map Prod.fst).nodup h1,
      ((List.filter_sublist _).map Prod.snd).nodup h2,
      fun p hp => h3 p (List.mem_of_mem_filter hp)⟩
  have hmatchf : ∀ p ∈ (linearSumAssignment
      (costMatrix A B (fun x y => if x = y then 1 else 0) t) A.length B.length).filter
      (fun p => decide (t ≤ costMatrix A B (fun x y => if x = y then 1 else 0) t p.1 p.2)),
      A[p.1]? = B[p.2]? ∧ (A[p.1]?).isSome := by
    intro p hp
    have hd := List.of_mem_filter hp
    simp only [decide_eq_true_eq] at hd
    have hcell := costMatrix_eq_cell A B t ht1 p.1 p.2
    by_cases hc : (A[p.1]?).isSome ∧ A[p.1]? = B[p.2]?
    · exact ⟨hc.2, hc.1⟩
    · rw [hcell, if_neg hc] at hd
      exact absurd hd (not_le.2 ht0)
  have hup := matched_le_num_same A B _ hvalf hmatchf
  -- lower bound: an optimal assignment is at least the constructed matching
  have hlow : num_same A B ≤
      ((linearSumAssignment (costMatrix A B (fun x y => if x = y then 1 else 0) t)
        A.length B.length).filter fun p =>
        decide (t ≤ costMatrix A B (fun x y => if x = y then 1 else 0) t p.1 p.2)).length := by
    obtain ⟨σ₀, hv0, hm0, hl0⟩ := exists_assignment_num_same A B
    have htot0 : totalScore (costMatrix A B (fun x y => if x = y then 1 else 0) t) σ₀ =
        (σ₀.length : ℚ) := by
      rw [totalScore_eq_matchCount A B t ht0 ht1 σ₀]
      congr 1
      have hkeep : σ₀.filter (fun p =>
          decide (t ≤ costMatrix A B (fun x y => if x = y then 1 else 0) t p.1 p.2)) = σ₀ :=
        List.filter_eq_self.2 fun p hp => decide_eq_true (by
          rw [costMatrix_eq_cell A B t ht1 p.1 p.2,
            if_pos ⟨(hm0 p hp).2, (hm0 p hp).1⟩]
          exact ht1)
      rw [hkeep]
    have hopt := linearSumAssignment_opt
      (costMatrix A B (fun x y => if x = y then 1 else 0) t) A.length B.length σ₀ hv0
    rw [htot0, totalScore_eq_matchCount A B t ht0 ht1 _, hl0] at hopt
    exact_mod_cast hopt
  exact le_antisymm hup hlow

/-- C3: the Counter-based `f1_score` equals the assignment-based
`uic_bb_f1_score` with plain-equality scoring, for any threshold in
`(0, 1]`. -/
theorem f1_score_refines_assignment_f1 {α : Type} [DecidableEq α] (A B : List α)
    (t : ℚ) (hA : A ≠ []) (hB : B ≠ []) (ht0 : 0 < t) (ht1 : t ≤ 1) :
    f1_score A B = uic_bb_f1_score A B (fun x y => if x = y then 1 else 0) t := by
  have key := solver_matchCount_eq_num_same A B t ht0 ht1
  obtain ⟨a, as, rfl⟩ : ∃ a as, A = a :: as := by
    cases A with
    | nil => exact absurd rfl hA
    | cons a as => exact ⟨a, as, rfl⟩
  obtain ⟨b, bs, rfl⟩ : ∃ b bs, B = b :: bs := by
    cases B with
    | nil => exact absurd rfl hB
    | cons b bs => exact ⟨b, bs, rfl⟩
  rw [uic_bb_f1_score_cons, key]
  rfl

/-- Witness for C3: `f1_score` and the assignment scorer agree on concrete
lists at threshold 1. -/
theorem f1_score_refines_assignment_f1_witness :
    f1_score [0, 1] [1, 2] =
      uic_bb_f1_score [0, 1] [1, 2] (fun x y : ℕ => if x = y then 1 else 0) 1 :=
  f1_score_refines_assignment_f1 [0, 1] [1, 2] 1 (by simp) (by simp)
    (by norm_num) (by norm_num)

/-- C5: the no-answer short-circuit of `sqa_s_metrics`: a `NO_ANSWER`
prediction scores `(1, 1)` exactly when some ground truth is `NO_ANSWER`
and `(0, 0)` otherwise; a non-sentinel prediction scores `(0, 0)` whenever
every ground truth is the sentinel (none remain after filtering). -/
theorem sqa_s_metrics_no_answer (gts : List String) :
    ((∃ gt ∈ gts, gt = NO_ANSWER) → sqa_s_metrics NO_ANSWER gts = (1, 1)) ∧
      ((∀ gt ∈ gts, gt ≠ NO_ANSWER) → sqa_s_metrics NO_ANSWER gts = (0, 0)) ∧
      (∀ p : String, p ≠ NO_ANSWER → (∀ gt ∈ gts, gt = NO_ANSWER) →
        sqa_s_metrics p gts = (0, 0)) := by
  refine ⟨?_, ?_, ?_⟩
  · intro h
    unfold sqa_s_metrics
    rw [if_pos rfl, if_pos ?_]
    rw [List.any_eq_true]
    obtain ⟨gt, hmem, hgt⟩ := h
    exact ⟨gt, hmem, beq_iff_eq.2 hgt⟩
  · intro h
    unfold sqa_s_metrics
    rw [if_pos rfl, if_neg ?_]
    rw [List.any_eq_true]
    rintro ⟨gt, hmem, hgt⟩
    exact h gt hmem (beq_iff_eq.1 hgt)
  · intro p hp h
    unfold sqa_s_metrics
    rw [if_neg hp]
    have hfil : gts.filter (fun gt => gt != NO_ANSWER) = [] := by
      rw [List.filter_eq_nil_iff]
      intro gt hmem
      simp [h gt hmem]
    rw [hfil]
    rfl

/-- Witness for C5 at the spec's concrete examples. -/
theorem sqa_s_metrics_no_answer_witness :
    sqa_s_metrics NO_ANSWER [NO_ANSWER] = (1, 1) ∧
      sqa_s_metrics NO_ANSWER ["paris"] = (0, 0) ∧
      sqa_s_metrics "Paris" [NO_ANSWER] = (0, 0) :=
  ⟨(sqa_s_metrics_no_answer [NO_ANSWER]).1 ⟨NO_ANSWER, List.mem_singleton_self _, rfl⟩,
    (sqa_s_metrics_no_answer ["paris"]).2.1 (by decide),
    (sqa_s_metrics_no_answer [NO_ANSWER]).2.2 "Paris" (by decide) (by decide)⟩

/-- C8: `normalize_squad` is exactly the composition lowercase, then
punctuation removal, then whole-word article removal, then whitespace
collapsing, and it sends `"The Cat."` and `"cat"` to the same string and
`"a  b"` to `"b"`. -/
theorem normalize_squad_spec :
    (∀ s : String, normalize_squad s =
      white_space_fix (remove_articles (replace_punctuation (py_lower s)))) ∧
      normalize_squad "The Cat." = normalize_squad "cat" ∧
      normalize_squad "a  b" = "b" :=
  ⟨fun _ => rfl, by decide, by decide⟩

/-- C10: the sentinel is detected by raw string equality before any
normalization: a prediction differing from `"<no answer>"` only in case is
ordinary text, so with a sentinel-only ground-truth list everything is
filtered away and the score is `(0, 0)`, even though the two strings
normalize identically. -/
theorem no_answer_raw_equality :
    NO_ANSWER = "<no answer>" ∧
      sqa_s_metrics "<No Answer>" [NO_ANSWER] = (0, 0) ∧
      normalize_squad "<No Answer>" = normalize_squad NO_ANSWER :=
  ⟨rfl, by decide, by decide⟩

/-- `uic_bb_exact_match` holds exactly on equal-length lists whose
position-wise pairs have equal content and sufficient IoU. -/
theorem uic_bb_exact_match_iff {α : Type} [DecidableEq α]
    (l1 l2 : List (Box × α)) (t : ℚ) :
    uic_bb_exact_match l1 l2 t = true ↔
      l2.length = l1.length ∧
        List.Forall₂ (fun e1 e2 => e1.2 = e2.2 ∧ t ≤ iou e1.1 e2.1) l1 l2 := by
  unfold uic_bb_exact_match
  by_cases hlen : l1.length = l2.length
  · rw [if_neg (by omega)]
    rw [List.all_eq_true]
    constructor
    · intro h
      refine ⟨hlen.symm, List.forall₂_iff_zip.2 ⟨hlen, ?_⟩⟩
      intro a b hab
      have := h (a, b) hab
      unfold ui_elements_match at this
      simpa using this
    · rintro ⟨-, hf⟩ p hp
      have := (List.forall₂_iff_zip.1 hf).2 hp
      unfold ui_elements_match
      simpa using this
  · rw [if_pos hlen]
    constructor
    · intro h
      exact absurd h (by simp)
    · rintro ⟨-, hf⟩
      exact absurd hf.length_eq hlen

/-- C1 (amended): for a non-empty prediction the EM component of
`sqa_uic_bb_metrics` is 1 iff some non-empty ground truth has the
prediction's length and position-wise equal content with IoU at least the
fixed default `1/10` — not the caller-supplied `iou_threshold`, which
`metrics.py` line 106 does not forward to `uic_bb_exact_match`. -/
theorem sqa_uic_bb_em_fixed_threshold {α : Type} [DecidableEq α]
    (prediction : List (Box × α)) (ground_truths : List (List (Box × α)))
    (iou_threshold : ℚ) (hpred : prediction ≠ []) :
    (sqa_uic_bb_metrics prediction ground_truths iou_threshold).2.1 = 1 ↔
      ∃ gt ∈ ground_truths, gt ≠ [] ∧ gt.length = prediction.length ∧
        List.Forall₂ (fun e1 e2 => e1.2 = e2.2 ∧ (1 : ℚ)/10 ≤ iou e1.1 e2.1)
          prediction gt := by
  obtain ⟨e, es, rfl⟩ : ∃ e es, prediction = e :: es := by
    cases prediction with
    | nil => exact absurd rfl hpred
    | cons e es => exact ⟨e, es, rfl⟩
  simp only [sqa_uic_bb_metrics, List.isEmpty_cons, Bool.false_eq_true, if_false]
  split
  · rename_i hfe
    constructor
    · intro h
      exact absurd h (by norm_num)
    · rintro ⟨gt, hmem, hne, -, -⟩
      have hmf : gt ∈ ground_truths.filter fun gt => !gt.isEmpty :=
        List.mem_filter.2 ⟨hmem, by simp [hne]⟩
      rw [List.isEmpty_iff.1 hfe] at hmf
      exact absurd hmf (List.not_mem_nil gt)
  · rename_i hfe
    show (if (ground_truths.filter fun gt => !gt.isEmpty).any
        (fun gt => uic_bb_exact_match (e :: es) gt) then (1 : ℚ) else 0) = 1 ↔ _
    constructor
    · intro h
      by_cases hany : (ground_truths.filter fun gt => !gt.isEmpty).any
          (fun gt => uic_bb_exact_match (e :: es) gt) = true
      · obtain ⟨gt, hmem, hex⟩ := List.any_eq_true.1 hany
        have h1 := List.mem_filter.1 hmem
        have h2 := (uic_bb_exact_match_iff (e :: es) gt (1/10)).1 hex
        exact ⟨gt, h1.1, by simpa [List.isEmpty_iff] using h1.2, h2.1, h2.2⟩
      · rw [if_neg hany] at h
        exact absurd h (by norm_num)
    · rintro ⟨gt, hmem, hne, hlen, hf⟩
      have hany : (ground_truths.filter fun gt => !gt.isEmpty).any
          (fun gt => uic_bb_exact_match (e :: es) gt) = true := by
        rw [List.any_eq_true]
        refine ⟨gt, List.mem_filter.2 ⟨hmem, by simp [hne]⟩, ?_⟩
        exact (uic_bb_exact_match_iff (e :: es) gt (1/10)).2 ⟨hlen, hf⟩
      rw [if_pos hany]

/-- C1 counterexample: with supplied `iou_threshold = 9/10` the EM
component is 1 even though the single ground-truth pair only reaches IoU
`1/2 < 9/10` (the exact-match check ran at the fixed default `1/10`), so
the claimed equivalence at the caller-supplied threshold is false. -/
theorem sqa_uic_bb_em_claim_counterexample :
    (sqa_uic_bb_metrics [(((0 : ℚ), (0 : ℚ), (1 : ℚ), (1 : ℚ)), (0 : ℕ))]
        [[(((0 : ℚ), (0 : ℚ), (1 : ℚ), (2 : ℚ)), (0 : ℕ))]] (9/10)).2.1 = 1 ∧
      ¬ ∃ gt ∈ [[(((0 : ℚ), (0 : ℚ), (1 : ℚ), (2 : ℚ)), (0 : ℕ))]], gt ≠ [] ∧
          gt.length = ([(((0 : ℚ), (0 : ℚ), (1 : ℚ), (1 : ℚ)), (0 : ℕ))] : List (Box × ℕ)).length ∧
          List.Forall₂ (fun e1 e2 => e1.2 = e2.2 ∧ (9 : ℚ)/10 ≤ iou e1.1 e2.1)
            [(((0 : ℚ), (0 : ℚ), (1 : ℚ), (1 : ℚ)), (0 : ℕ))] gt := by
  constructor
  · with_unfolding_all decide
  · with_unfolding_all decide

/-- Witness for the amended C1: applying the fixed-threshold equivalence
at a concrete input whose pair passes `1/10` but not the supplied `9/10`. -/
theorem sqa_uic_bb_em_fixed_threshold_witness :
    (sqa_uic_bb_metrics [(((0 : ℚ), (0 : ℚ), (1 : ℚ), (1 : ℚ)), (0 : ℕ))]
        [[(((0 : ℚ), (0 : ℚ), (1 : ℚ), (2 : ℚ)), (0 : ℕ))]] (9/10)).2.1 = 1 :=
  (sqa_uic_bb_em_fixed_threshold [(((0 : ℚ), (0 : ℚ), (1 : ℚ), (1 : ℚ)), (0 : ℕ))]
      [[(((0 : ℚ), (0 : ℚ), (1 : ℚ), (2 : ℚ)), (0 : ℕ))]] (9/10) (by simp)).2
    (by with_unfolding_all decide)
